import Mathlib

/-!
Verification of `mio_httpc`'s `src/api/mod.rs` against its specification.

Machine integers are embedded as `Nat` with explicit reductions modulo
`2 ^ w` where the Rust code narrows; byte strings are `List Nat`.
-/

namespace MioHttpc

/-- Maximum value of Rust's `usize` on a 64-bit platform
(`usize::max_value()`). -/
def USIZE_MAX : Nat := 2 ^ 64 - 1

/-- `pub struct Call(pub(crate) u32, pub(crate) usize);` — the first field is
the packed 32-bit identity, the second a reserved `usize`.  The derived
`PartialEq` compares both fields. -/
structure Call where
  packed : Nat
  reserved : Nat
deriving DecidableEq, Repr

/-- `pub struct CallRef(pub(crate) u32, pub(crate) usize);` -/
structure CallRef where
  packed : Nat
  reserved : Nat
deriving DecidableEq, Repr

/-- The value of a Rust `u16` as a `Nat` (explicit reduction mod `2 ^ 16`). -/
def u16 (n : Nat) : Nat := n % 2 ^ 16

/-- `Call::new(con_id, call_id)`: casts both `u16`s to `u32` and stores
`(call_id << 16) | con_id` together with `usize::max_value()`. -/
def Call.new (con_id call_id : Nat) : Call :=
  ⟨(u16 call_id <<< 16) ||| u16 con_id, USIZE_MAX⟩

/-- `Call::empty()` — the sentinel `Call(0xffff_ffff, usize::max_value())`. -/
def Call.empty : Call :=
  ⟨0xffffffff, USIZE_MAX⟩

/-- `Call::is_empty` — `*self == Call::empty()`, full fieldwise comparison. -/
def Call.is_empty (c : Call) : Bool :=
  c == Call.empty

/-- `Call::get_ref` — `CallRef(self.0, self.1)`. -/
def Call.get_ref (c : Call) : CallRef :=
  ⟨c.packed, c.reserved⟩

/-- `Call::is_ref` — `self.0 == r.0`: only the packed field is compared. -/
def Call.is_ref (c : Call) (r : CallRef) : Bool :=
  c.packed == r.packed

/-- `Call::call_id` — `((self.0 >> 16) & 0xFFFF) as u16`. -/
def Call.call_id (c : Call) : Nat :=
  (c.packed >>> 16) &&& 0xFFFF

/-- `Call::con_id` — `(self.0 & 0xFFFF) as u16`. -/
def Call.con_id (c : Call) : Nat :=
  c.packed &&& 0xFFFF

/-- `Call::invalidate` — `*self = Call::empty();` (the state after the
mutation). -/
def Call.invalidate (_c : Call) : Call :=
  Call.empty

/-- `CallRef::new(con_id, call_id)` — same packing as `Call::new`. -/
def CallRef.new (con_id call_id : Nat) : CallRef :=
  ⟨(u16 call_id <<< 16) ||| u16 con_id, USIZE_MAX⟩

/-- The operations of the `Call` API that mutate an existing `Call` value
(`&mut self` receivers).  `invalidate` is the only one in the source. -/
inductive CallMutOp where
  | invalidateOp
deriving DecidableEq, Repr

/-- Apply a mutating `Call`-API operation to a `Call` state. -/
def applyCallMutOp : CallMutOp → Call → Call
  | .invalidateOp, c => c.invalidate

/-! Packing arithmetic helpers. -/

theorem u16_lt (n : Nat) : u16 n < 2 ^ 16 :=
  Nat.mod_lt _ (by norm_num)

theorem u16_of_lt {n : Nat} (h : n < 2 ^ 16) : u16 n = n :=
  Nat.mod_eq_of_lt h

/-- The packed field of `Call.new` written as plain arithmetic. -/
theorem new_packed_eq (con_id call_id : Nat) :
    (Call.new con_id call_id).packed = u16 call_id * 2 ^ 16 + u16 con_id := by
  have h := Nat.mul_add_lt_is_or (u16_lt con_id) (u16 call_id)
  show (u16 call_id <<< 16) ||| u16 con_id = _
  rw [Nat.shiftLeft_eq, Nat.mul_comm (u16 call_id) (2 ^ 16)]
  exact h.symm

theorem new_con_id (con_id call_id : Nat) :
    (Call.new con_id call_id).con_id = u16 con_id := by
  show (Call.new con_id call_id).packed &&& 0xFFFF = u16 con_id
  have h16 : (0xFFFF : Nat) = 2 ^ 16 - 1 := by norm_num
  rw [new_packed_eq, h16, Nat.and_pow_two_sub_one_eq_mod]
  have hc := u16_lt con_id
  omega

theorem new_call_id (con_id call_id : Nat) :
    (Call.new con_id call_id).call_id = u16 call_id := by
  show ((Call.new con_id call_id).packed >>> 16) &&& 0xFFFF = u16 call_id
  have h16 : (0xFFFF : Nat) = 2 ^ 16 - 1 := by norm_num
  rw [new_packed_eq, Nat.shiftRight_eq_div_pow, h16,
    Nat.and_pow_two_sub_one_eq_mod]
  have hc := u16_lt con_id
  have hl := u16_lt call_id
  omega

theorem new_packed_lt (con_id call_id : Nat) :
    (Call.new con_id call_id).packed < 2 ^ 32 := by
  rw [new_packed_eq]
  have h1 := u16_lt call_id
  have h2 := u16_lt con_id
  omega

/-- **C1.** `is_ref` round-trip: for every `Call` `c` (live or invalidated),
`c.is_ref (c.get_ref)` holds; `is_ref` compares only the packed 32-bit field
(the reserved field is excluded); and a freshly constructed
`Call.new con call` still satisfies `is_ref` for the `CallRef` obtained from
an earlier, since-invalidated `Call` with the same pair. -/
theorem C1_is_ref_roundtrip :
    (∀ c : Call, c.is_ref c.get_ref = true) ∧
    (∀ (c : Call) (r : CallRef), c.is_ref r = (c.packed == r.packed)) ∧
    (∀ con call : Nat,
      ((Call.new con call).invalidate).is_empty = true ∧
      (Call.new con call).is_ref ((Call.new con call).get_ref) = true) := by
  refine ⟨fun c => ?_, fun c r => rfl, fun con call => ⟨?_, ?_⟩⟩
  · simp [Call.is_ref, Call.get_ref]
  · simp [Call.invalidate, Call.is_empty]
  · simp [Call.is_ref, Call.get_ref]

/-- **C2.** After `invalidate`, `is_empty` is true regardless of the prior
value; a second `invalidate` is idempotent; and no mutating operation of the
`Call` API maps the sentinel back to a non-empty value. -/
theorem C2_invalidate_permanent :
    (∀ c : Call, (c.invalidate).is_empty = true) ∧
    (∀ c : Call, (c.invalidate).invalidate = c.invalidate) ∧
    (∀ op : CallMutOp, applyCallMutOp op Call.empty = Call.empty) := by
  refine ⟨fun c => ?_, fun c => rfl, fun op => ?_⟩
  · simp [Call.invalidate, Call.is_empty]
  · cases op
    rfl

/-- **C3.** `Call.empty.is_empty` is true; for every `(con_id, call_id)` pair
of `u16`s other than `(0xFFFF, 0xFFFF)`, `(Call.new con_id call_id).is_empty`
is false; and `is_empty` holds exactly when the value equals the sentinel by
full comparison of both fields. -/
theorem C3_is_empty_characterisation :
    Call.empty.is_empty = true ∧
    (∀ c : Call, c.is_empty = true ↔ c = Call.empty) ∧
    (∀ con call : Nat, con < 2 ^ 16 → call < 2 ^ 16 →
      ¬(con = 0xFFFF ∧ call = 0xFFFF) →
      (Call.new con call).is_empty = false) := by
  refine ⟨by simp [Call.is_empty], fun c => ?_, fun con call hc hl hne => ?_⟩
  · simp [Call.is_empty]
  · have hp := new_packed_eq con call
    rw [u16_of_lt hc, u16_of_lt hl] at hp
    simp only [Call.is_empty, Call.empty, beq_eq_false_iff_ne, ne_eq]
    intro heq
    have : (Call.new con call).packed = 0xffffffff := by rw [heq]
    rw [hp] at this
    exact hne (by omega)

/-- Closed instance of C3's universally quantified part: a concrete
non-sentinel pair yields a non-empty `Call`. -/
theorem C3_is_empty_characterisation_witness :
    (Call.new 3 7).is_empty = false :=
  C3_is_empty_characterisation.2.2 3 7 (by norm_num) (by norm_num)
    (by intro h; exact absurd h.1 (by norm_num))

/-- **C4.** `Call.new con call` packs its two 16-bit arguments as
`(call <<< 16) ||| con` into a 32-bit field and sets the reserved field to
`usize`'s maximum; the constructor is injective on pairs, and
`call_id`/`con_id` recover the original arguments. -/
theorem C4_new_packs_and_recovers :
    (∀ con call : Nat,
      (Call.new con call).packed = (u16 call <<< 16) ||| u16 con ∧
      (Call.new con call).packed < 2 ^ 32 ∧
      (Call.new con call).reserved = USIZE_MAX) ∧
    (∀ con call : Nat, con < 2 ^ 16 → call < 2 ^ 16 →
      (Call.new con call).con_id = con ∧ (Call.new con call).call_id = call) ∧
    (∀ a b c d : Nat, a < 2 ^ 16 → b < 2 ^ 16 → c < 2 ^ 16 → d < 2 ^ 16 →
      (Call.new a b = Call.new c d ↔ a = c ∧ b = d)) := by
  refine ⟨fun con call => ⟨rfl, new_packed_lt con call, rfl⟩,
    fun con call hc hl => ?_, fun a b c d ha hb hc hd => ?_⟩
  · rw [new_con_id, new_call_id, u16_of_lt hc, u16_of_lt hl]
    exact ⟨rfl, rfl⟩
  · constructor
    · intro h
      have hpack : (Call.new a b).packed = (Call.new c d).packed := by rw [h]
      rw [new_packed_eq, new_packed_eq, u16_of_lt ha, u16_of_lt hb,
        u16_of_lt hc, u16_of_lt hd] at hpack
      omega
    · rintro ⟨rfl, rfl⟩
      rfl

/-- Closed instance of C4's quantified parts at a concrete pair. -/
theorem C4_new_packs_and_recovers_witness :
    (Call.new 5 9).con_id = 5 ∧ (Call.new 5 9).call_id = 9 ∧
    (Call.new 5 9 = Call.new 5 9 ↔ (5 : Nat) = 5 ∧ (9 : Nat) = 9) :=
  ⟨(C4_new_packs_and_recovers.2.1 5 9 (by norm_num) (by norm_num)).1,
   (C4_new_packs_and_recovers.2.1 5 9 (by norm_num) (by norm_num)).2,
   C4_new_packs_and_recovers.2.2 5 9 5 9 (by norm_num) (by norm_num)
     (by norm_num) (by norm_num)⟩

/-- **C9.** The constructor does not exclude the sentinel bit pattern:
`Call.new 0xFFFF 0xFFFF` is bitwise equal to `Call.empty`, so its `is_empty`
returns true. -/
theorem C9_new_sentinel_collision :
    Call.new 0xFFFF 0xFFFF = Call.empty ∧
    (Call.new 0xFFFF 0xFFFF).is_empty = true := by
  constructor <;> decide

/-! `ResponseBody` -/

/-- `pub enum ResponseBody { Sized(usize), Streamed }` -/
inductive ResponseBody where
  | Sized (n : Nat)
  | Streamed
deriving DecidableEq, Repr

/-- `ResponseBody::is_empty` — `match` with guard `Sized(n) if n == 0`. -/
def ResponseBody.is_empty (b : ResponseBody) : Bool :=
  match b with
  | .Sized n => if n == 0 then true else false
  | .Streamed => false

/-- **C7.** `ResponseBody.is_empty` returns true iff the value is `Sized 0`:
`Sized 0` is empty, `Sized n` for `n > 0` is not, and `Streamed` is not. -/
theorem C7_response_body_is_empty :
    (ResponseBody.Sized 0).is_empty = true ∧
    (∀ n : Nat, 0 < n → (ResponseBody.Sized n).is_empty = false) ∧
    ResponseBody.Streamed.is_empty = false ∧
    (∀ b : ResponseBody, b.is_empty = true ↔ b = ResponseBody.Sized 0) := by
  refine ⟨rfl, fun n hn => ?_, rfl, fun b => ?_⟩
  · have hne : n ≠ 0 := by omega
    simp [ResponseBody.is_empty, hne]
  · cases b with
    | Sized n =>
      by_cases h : n = 0
      · subst h
        simp [ResponseBody.is_empty]
      · simp [ResponseBody.is_empty, h]
    | Streamed => simp [ResponseBody.is_empty]

/-- Closed instance of C7's hypothesised part at `n = 1`. -/
theorem C7_response_body_is_empty_witness :
    (ResponseBody.Sized 1).is_empty = false :=
  C7_response_body_is_empty.2.1 1 (by norm_num)

/-! `Header` -/

/-- `pub struct Header { name, value }` — both strings are embedded as their
UTF-8 byte sequences. -/
structure Header where
  name : List Nat
  value : List Nat
deriving DecidableEq, Repr

/-- `u8::to_ascii_lowercase`: maps `b'A'..=b'Z'` to lowercase, leaves every
other byte unchanged. -/
def toAsciiLowercase (b : Nat) : Nat :=
  if 65 ≤ b ∧ b ≤ 90 then b + 32 else b

/-- `<[u8]>::eq_ignore_ascii_case`: equal lengths and pointwise
ASCII-case-insensitive byte equality (what `str::eq_ignore_ascii_case`
delegates to). -/
def eqIgnoreAsciiCase : List Nat → List Nat → Bool
  | [], [] => true
  | a :: as, b :: bs =>
    (toAsciiLowercase a == toAsciiLowercase b) && eqIgnoreAsciiCase as bs
  | _, _ => false

/-- `Header::is` — `self.name.eq_ignore_ascii_case(v)`. -/
def Header.is (h : Header) (v : List Nat) : Bool :=
  eqIgnoreAsciiCase h.name v

theorem eqIgnoreAsciiCase_iff_map_lower (a b : List Nat) :
    eqIgnoreAsciiCase a b = true ↔
      a.map toAsciiLowercase = b.map toAsciiLowercase := by
  induction a generalizing b with
  | nil =>
    cases b with
    | nil => simp [eqIgnoreAsciiCase]
    | cons y ys => simp [eqIgnoreAsciiCase]
  | cons x xs ih =>
    cases b with
    | nil => simp [eqIgnoreAsciiCase]
    | cons y ys =>
      simp [eqIgnoreAsciiCase, ih]

/-- The UTF-8 bytes of `"Content-Type"`. -/
def contentTypeBytes : List Nat :=
  [67, 111, 110, 116, 101, 110, 116, 45, 84, 121, 112, 101]

/-- The UTF-8 bytes of `"content-type"`. -/
def contentTypeLowerBytes : List Nat :=
  [99, 111, 110, 116, 101, 110, 116, 45, 116, 121, 112, 101]

/-- The UTF-8 bytes of `"Content Type"` (space instead of hyphen). -/
def contentTypeSpaceBytes : List Nat :=
  [67, 111, 110, 116, 101, 110, 116, 32, 84, 121, 112, 101]

/-- **C8.** `Header.is v` compares the header's name to `v` ASCII
case-insensitively and by nothing else: it is true exactly when the two byte
strings agree after ASCII case folding; `"Content-Type"` matches
`"content-type"` but not `"Content Type"`, and non-ASCII bytes (here
`"É"` = `[0xC3, 0x89]` versus `"é"` = `[0xC3, 0xA9]`) are compared without
case normalisation. -/
theorem C8_header_is_ascii_case_insensitive :
    (∀ (h : Header) (v : List Nat),
      h.is v = true ↔ h.name.map toAsciiLowercase = v.map toAsciiLowercase) ∧
    Header.is ⟨contentTypeBytes, []⟩ contentTypeLowerBytes = true ∧
    Header.is ⟨contentTypeBytes, []⟩ contentTypeSpaceBytes = false ∧
    Header.is ⟨[0xC3, 0x89], []⟩ [0xC3, 0xA9] = false := by
  refine ⟨fun h v => eqIgnoreAsciiCase_iff_map_lower h.name v, ?_, ?_, ?_⟩
  · decide
  · decide
  · decide

/-! `Response::headers` -/

/-- Is `b` a UTF-8 continuation byte (`0x80..=0xBF`)? -/
def isUtf8Cont (b : Nat) : Bool := 0x80 ≤ b && b ≤ 0xBF

/-- Validity of a byte sequence as UTF-8 (RFC 3629: no overlong forms, no
surrogates, scalar values at most `U+10FFFF`) — the acceptance condition of
Rust's `str::from_utf8`. -/
def utf8Valid : List Nat → Bool
  | [] => true
  | b :: rest =>
    if b ≤ 0x7F then utf8Valid rest
    else if 0xC2 ≤ b && b ≤ 0xDF then
      match rest with
      | c1 :: r => isUtf8Cont c1 && utf8Valid r
      | [] => false
    else if b == 0xE0 then
      match rest with
      | c1 :: c2 :: r =>
        (0xA0 ≤ c1 && c1 ≤ 0xBF) && (isUtf8Cont c2 && utf8Valid r)
      | _ => false
    else if (0xE1 ≤ b && b ≤ 0xEC) || (0xEE ≤ b && b ≤ 0xEF) then
      match rest with
      | c1 :: c2 :: r => isUtf8Cont c1 && (isUtf8Cont c2 && utf8Valid r)
      | _ => false
    else if b == 0xED then
      match rest with
      | c1 :: c2 :: r =>
        (0x80 ≤ c1 && c1 ≤ 0x9F) && (isUtf8Cont c2 && utf8Valid r)
      | _ => false
    else if b == 0xF0 then
      match rest with
      | c1 :: c2 :: c3 :: r =>
        (0x90 ≤ c1 && c1 ≤ 0xBF) &&
          (isUtf8Cont c2 && (isUtf8Cont c3 && utf8Valid r))
      | _ => false
    else if 0xF1 ≤ b && b ≤ 0xF3 then
      match rest with
      | c1 :: c2 :: c3 :: r =>
        isUtf8Cont c1 && (isUtf8Cont c2 && (isUtf8Cont c3 && utf8Valid r))
      | _ => false
    else if b == 0xF4 then
      match rest with
      | c1 :: c2 :: c3 :: r =>
        (0x80 ≤ c1 && c1 ≤ 0x8F) &&
          (isUtf8Cont c2 && (isUtf8Cont c3 && utf8Valid r))
      | _ => false
    else false

/-- `httparse::EMPTY_HEADER` — empty name, empty value. -/
def emptyHeader : Header := ⟨[], []⟩

/-- Modelled from the spec: the byte-level parser of the external `httparse`
crate (`httparse::Response::parse`) is not part of this repository; it is
represented here at the level of the already-split header lines of the
accumulated raw block.  Parsing into the caller's 32-slot
`[EMPTY_HEADER; 32]` array fills the slots with the first at most 32 header
lines in wire order and leaves the remaining slots `EMPTY_HEADER`
(`Error::TooManyHeaders` beyond the 32nd is discarded by the caller's
`let _ = presp.parse(..)`). -/
def httparseFill (lines : List Header) : List Header :=
  lines.take 32 ++ List.replicate (32 - lines.length) emptyHeader

/-- The scan loop of `Response::headers` over the 32 parsed slots: stop at
the first slot whose name is empty, keep a slot whose value bytes are valid
UTF-8 (`if let Ok(v) = from_utf8(raw[i].value)`), silently skip a slot whose
value is not valid UTF-8. -/
def headersScan : List Header → List Header
  | [] => []
  | h :: t =>
    if h.name.length == 0 then []
    else if utf8Valid h.value then h :: headersScan t
    else headersScan t

/-- `Response::headers` as a function of the header lines of the accumulated
raw block `self.hdrs`. -/
def Response.headers (lines : List Header) : List Header :=
  headersScan (httparseFill lines)

theorem length_headersScan_le (l : List Header) :
    (headersScan l).length ≤ l.length := by
  induction l with
  | nil => simp [headersScan]
  | cons h t ih =>
    simp only [headersScan]
    split
    · simp
    · split
      · simpa using Nat.succ_le_succ ih
      · exact Nat.le_succ_of_le ih

theorem length_httparseFill (lines : List Header) :
    (httparseFill lines).length = 32 := by
  simp only [httparseFill, List.length_append, List.length_take,
    List.length_replicate]
  omega

theorem headersScan_cons_nonempty (h : Header) (t : List Header)
    (hh : h.name ≠ []) :
    headersScan (h :: t) =
      if utf8Valid h.value then h :: headersScan t else headersScan t := by
  have hlen : (h.name.length == 0) = false := by simpa using hh
  simp only [headersScan, hlen, Bool.false_eq_true, if_false]

theorem headersScan_all_nonempty (l : List Header)
    (hne : ∀ h ∈ l, h.name ≠ []) :
    headersScan l = l.filter fun h => utf8Valid h.value := by
  induction l with
  | nil => rfl
  | cons h t ih =>
    have hh : h.name ≠ [] := hne h (by simp)
    rw [headersScan_cons_nonempty h t hh, ih fun x hx => hne x (by simp [hx]),
      List.filter_cons]

theorem headersScan_append_empty (l1 : List Header)
    (hne : ∀ h ∈ l1, h.name ≠ []) (e : Header) (he : e.name = [])
    (l2 : List Header) :
    headersScan (l1 ++ e :: l2) = l1.filter fun h => utf8Valid h.value := by
  induction l1 with
  | nil =>
    simp only [List.nil_append, headersScan, he, List.filter_nil]
    rfl
  | cons h t ih =>
    have hh : h.name ≠ [] := hne h (by simp)
    rw [List.cons_append, headersScan_cons_nonempty _ _ hh,
      ih fun x hx => hne x (by simp [hx]), List.filter_cons]

theorem headersScan_pad (l : List Header) (k : Nat)
    (hne : ∀ h ∈ l, h.name ≠ []) :
    headersScan (l ++ List.replicate k emptyHeader) =
      l.filter fun h => utf8Valid h.value := by
  cases k with
  | zero =>
    rw [List.replicate_zero, List.append_nil]
    exact headersScan_all_nonempty l hne
  | succ n =>
    rw [List.replicate_succ]
    exact headersScan_append_empty l hne emptyHeader rfl _

/-- **C5.** `Response.headers` never yields more than 32 entries, and for a
block of 40 well-formed header lines (non-empty names, UTF-8 values) it
yields exactly 32 entries, silently dropping the rest. -/
theorem C5_headers_capped_at_32 (lines : List Header) :
    (Response.headers lines).length ≤ 32 ∧
    (lines.length = 40 →
      (∀ h ∈ lines, h.name ≠ [] ∧ utf8Valid h.value = true) →
      (Response.headers lines).length = 32) := by
  constructor
  · calc (Response.headers lines).length
        ≤ (httparseFill lines).length := length_headersScan_le _
      _ = 32 := length_httparseFill lines
  · intro h40 hwf
    have hne : ∀ h ∈ lines.take 32, h.name ≠ [] :=
      fun h hh => (hwf h (List.take_subset _ _ hh)).1
    have hval : ∀ h ∈ lines.take 32, utf8Valid h.value = true :=
      fun h hh => (hwf h (List.take_subset _ _ hh)).2
    show (headersScan (lines.take 32 ++ List.replicate _ emptyHeader)).length = 32
    rw [headersScan_pad _ _ hne, List.filter_eq_self.mpr hval,
      List.length_take_of_le (by omega)]

/-- Closed instance of C5 at a concrete block of 40 well-formed lines. -/
theorem C5_headers_capped_at_32_witness :
    (Response.headers (List.replicate 40 ⟨[65], [48]⟩)).length = 32 :=
  (C5_headers_capped_at_32 (List.replicate 40 ⟨[65], [48]⟩)).2
    (by decide) (by decide)

/-- **C6.** In `Response.headers`, an entry whose value bytes are not valid
UTF-8 is silently skipped while entries with valid UTF-8 values are kept in
original wire order (the result is exactly the UTF-8-valid entries of the
first 32 lines), and the scan stops at the first entry with an empty header
name. -/
theorem C6_headers_skip_invalid_utf8 (lines : List Header)
    (hne : ∀ h ∈ lines, h.name ≠ []) :
    Response.headers lines =
      (lines.take 32).filter (fun h => utf8Valid h.value) ∧
    (∀ (e : Header) (post : List Header), e.name = [] →
      Response.headers (lines ++ e :: post) = Response.headers lines) := by
  have hne32 : ∀ h ∈ lines.take 32, h.name ≠ [] :=
    fun h hh => hne h (List.take_subset _ _ hh)
  have hmain : Response.headers lines =
      (lines.take 32).filter (fun h => utf8Valid h.value) :=
    headersScan_pad _ _ hne32
  refine ⟨hmain, fun e post he => ?_⟩
  by_cases hlen : lines.length ≤ 32
  · have htk : lines.take 32 = lines := List.take_of_length_le hlen
    have htk2 : (lines ++ e :: post).take 32 =
        lines ++ (e :: post).take (32 - lines.length) := by
      rw [List.take_append_eq_append_take, htk]
    show headersScan _ = _
    rw [httparseFill, htk2]
    rcases Nat.exists_eq_add_of_le hlen with ⟨k, hk⟩
    by_cases hk0 : 32 - lines.length = 0
    · have h32 : lines.length = 32 := by omega
      rw [hk0, List.take_zero, List.append_nil, List.length_append]
      have : 32 - (lines.length + (e :: post).length) = 0 := by
        simp only [List.length_cons]
        omega
      rw [this, List.replicate_zero, List.append_nil,
        headersScan_all_nonempty lines hne, hmain, htk]
    · have : (e :: post).take (32 - lines.length) =
          e :: post.take (32 - lines.length - 1) := by
        rcases Nat.exists_eq_succ_of_ne_zero hk0 with ⟨m, hm⟩
        rw [hm, List.take_succ_cons]
        simp [hm]
      rw [this, List.append_assoc]
      show headersScan (lines ++ (e :: (post.take _ ++ List.replicate _ emptyHeader))) = _
      rw [headersScan_append_empty lines hne e he, hmain, htk]
  · have h32 : 32 ≤ lines.length := by omega
    have htk2 : (lines ++ e :: post).take 32 = lines.take 32 :=
      List.take_append_of_le_length h32
    show headersScan _ = _
    rw [httparseFill, htk2, List.length_append]
    have hz1 : 32 - (lines.length + (e :: post).length) = 0 := by
      simp only [List.length_cons]
      omega
    have hz2 : 32 - lines.length = 0 := by omega
    rw [hz1, List.replicate_zero, List.append_nil, hmain,
      headersScan_all_nonempty _ hne32]

/-- Closed instance of C6: a block of 3 well-formed lines and 1 line with a
non-UTF-8 value (`[0xFF]`) yields exactly the 3 valid entries in wire
order. -/
theorem C6_headers_skip_invalid_utf8_witness :
    Response.headers
        [⟨[97], [49]⟩, ⟨[98], [0xFF]⟩, ⟨[99], [50]⟩, ⟨[100], [51]⟩] =
      [⟨[97], [49]⟩, ⟨[99], [50]⟩, ⟨[100], [51]⟩] :=
  ((C6_headers_skip_invalid_utf8
      [⟨[97], [49]⟩, ⟨[98], [0xFF]⟩, ⟨[99], [50]⟩, ⟨[100], [51]⟩]
      (by decide)).1).trans (by decide)

/-! `HttpcCfg::certs_from_path` -/

/-- The bytes of the extension `"crt"`. -/
def crtBytes : List Nat := [99, 114, 116]

/-- The bytes of the extension `"pem"`. -/
def pemBytes : List Nat := [112, 101, 109]

instance {ε α : Type} [DecidableEq ε] [DecidableEq α] :
    DecidableEq (Except ε α) := fun x y =>
  match x, y with
  | .ok a, .ok b =>
    if h : a = b then .isTrue (h ▸ rfl)
    else .isFalse fun hc => h (Except.ok.inj hc)
  | .error a, .error b =>
    if h : a = b then .isTrue (h ▸ rfl)
    else .isFalse fun hc => h (Except.error.inj hc)
  | .ok _, .error _ => .isFalse fun hc => Except.noConfusion hc
  | .error _, .ok _ => .isFalse fun hc => Except.noConfusion hc

/-- A directory entry as seen by the body of `certs_from_path`'s loop:
`ext` is `de.path().extension()`, `meta` the outcome of
`fs::metadata(de.path())` (its `len()` on success), and `contents` the
outcome of `fs::File::open(de.path())` followed by `read_to_end`. -/
structure DirEnt where
  ext : Option (List Nat)
  meta : Except Unit Nat
  contents : Except Unit (List Nat)
deriving DecidableEq, Repr

/-- What the argument `path` of `certs_from_path` names: a file (with the
outcome of open + `read_to_end`), a directory (with the items yielded by
`fs::read_dir`, where an `Err` item is an entry the iterator fails to
yield), or a path whose `fs::metadata` fails. -/
inductive PathTarget where
  | file (contents : Except Unit (List Nat))
  | dir (entries : List (Except Unit DirEnt))
  | missing
deriving DecidableEq, Repr

/-- The `for de in fs::read_dir(path)?` loop of `certs_from_path`, with
`acc` the `cfg.pem_ca` accumulated so far.  `Err` items are skipped
(`if de.is_err() { continue; }`); a `fs::metadata` or open/read failure on a
matching entry propagates through `?` as the whole call's error. -/
def certsLoop : List (Except Unit DirEnt) → List (List Nat) →
    Except Unit (List (List Nat))
  | [], acc => .ok acc
  | .error _ :: rest, acc => certsLoop rest acc
  | .ok de :: rest, acc =>
    match de.ext with
    | some ex =>
      if [crtBytes, pemBytes].contains ex then
        match de.meta with
        | .error e => .error e
        | .ok len =>
          if len < 1024 * 8 then
            match de.contents with
            | .error e => .error e
            | .ok c => certsLoop rest (acc ++ [c])
          else certsLoop rest acc
      else certsLoop rest acc
    | none => certsLoop rest acc

/-- `HttpcCfg::certs_from_path`, returning the `pem_ca` field of the
configuration on success. -/
def certs_from_path : PathTarget → Except Unit (List (List Nat))
  | .missing => .error ()
  | .file c =>
    match c with
    | .error e => .error e
    | .ok contents => .ok [contents]
  | .dir entries => certsLoop entries []

/-- An item of the directory iteration on which `certs_from_path` does not
hit a propagating `?` failure: either an `Err` item (skipped), a
non-matching entry, a matching entry of size at least 8 KiB, or a matching
small entry whose metadata and contents are both readable. -/
def entryOk : Except Unit DirEnt → Bool
  | .error _ => true
  | .ok de =>
    match de.ext with
    | some ex =>
      if [crtBytes, pemBytes].contains ex then
        match de.meta with
        | .error _ => false
        | .ok len =>
          if len < 1024 * 8 then
            match de.contents with
            | .error _ => false
            | .ok _ => true
          else true
      else true
    | none => true

/-- The certificate contributed by one directory item: the contents exactly
when the entry has extension `crt` or `pem` and size under 8 KiB. -/
def entryCert : Except Unit DirEnt → Option (List Nat)
  | .error _ => none
  | .ok de =>
    match de.ext with
    | some ex =>
      if [crtBytes, pemBytes].contains ex then
        match de.meta with
        | .error _ => none
        | .ok len =>
          if len < 1024 * 8 then
            match de.contents with
            | .error _ => none
            | .ok c => some c
          else none
      else none
    | none => none

theorem certsLoop_ok (es : List (Except Unit DirEnt)) :
    ∀ acc : List (List Nat), (∀ x ∈ es, entryOk x = true) →
      certsLoop es acc = .ok (acc ++ es.filterMap entryCert) := by
  induction es with
  | nil => intro acc _; simp [certsLoop]
  | cons x rest ih =>
    intro acc hok
    have hrest : ∀ y ∈ rest, entryOk y = true :=
      fun y hy => hok y (by simp [hy])
    have hx : entryOk x = true := hok x (by simp)
    cases x with
    | error u =>
      simp only [certsLoop, List.filterMap_cons, entryCert]
      exact ih acc hrest
    | ok de =>
      obtain ⟨ext, meta, contents⟩ := de
      cases ext with
      | none =>
        simp only [certsLoop, List.filterMap_cons, entryCert]
        exact ih acc hrest
      | some ex =>
        by_cases hw : ex = crtBytes ∨ ex = pemBytes
        · rcases hw with h | h
          all_goals
            cases meta with
            | error u =>
              simp [entryOk, h] at hx
            | ok len =>
              by_cases hlen : len < 1024 * 8
              · cases contents with
                | error u =>
                  simp [entryOk, h, hlen] at hx
                | ok c =>
                  have hstep : certsLoop
                      (.ok ⟨some ex, .ok len, .ok c⟩ :: rest) acc =
                      certsLoop rest (acc ++ [c]) := by
                    simp [certsLoop, h, hlen]
                  rw [hstep, ih (acc ++ [c]) hrest]
                  simp [entryCert, h, hlen, List.filterMap_cons,
                    List.append_assoc]
              · have hstep : certsLoop
                    (.ok ⟨some ex, .ok len, contents⟩ :: rest) acc =
                    certsLoop rest acc := by
                  simp [certsLoop, h, hlen]
                rw [hstep, ih acc hrest]
                simp [entryCert, h, hlen, List.filterMap_cons]
        · have h1 : ¬ex = crtBytes := fun hc => hw (Or.inl hc)
          have h2 : ¬ex = pemBytes := fun hc => hw (Or.inr hc)
          have hstep : certsLoop (.ok ⟨some ex, meta, contents⟩ :: rest) acc =
              certsLoop rest acc := by
            simp [certsLoop, h1, h2]
          rw [hstep, ih acc hrest]
          simp [entryCert, h1, h2, List.filterMap_cons]

/-- **C10 (counterexample).** The claim "unreadable entries are skipped
rather than failing the whole call" is false: a directory whose single
entry is a small `.pem` file that cannot be opened makes the whole call
return an error instead of skipping the entry. -/
theorem C10_unreadable_entry_fails_call :
    certs_from_path
        (.dir [.ok ⟨some pemBytes, .ok 10, .error ()⟩]) = .error () := by
  rfl

/-- **C10 (amended).** When the path names a file, the whole file's bytes
become the single `pem_ca` entry (an unreadable file is an error); when it
names a directory, exactly the immediate entries with extension `.crt` or
`.pem` and size strictly under 8 KiB are read into `pem_ca` in iteration
order; items the directory iterator fails to yield are skipped, while a
metadata or open/read failure on a matching small entry fails the whole
call (hence the `entryOk` hypothesis). -/
theorem C10_certs_from_path_behaviour :
    (∀ c : List Nat, certs_from_path (.file (.ok c)) = .ok [c]) ∧
    certs_from_path (.file (.error ())) = .error () ∧
    certs_from_path .missing = .error () ∧
    (∀ es : List (Except Unit DirEnt), (∀ x ∈ es, entryOk x = true) →
      certs_from_path (.dir es) = .ok (es.filterMap entryCert)) := by
  refine ⟨fun c => rfl, rfl, rfl, fun es hok => ?_⟩
  show certsLoop es [] = _
  rw [certsLoop_ok es [] hok, List.nil_append]

/-- Closed instance of C10's directory case: an iterator error, a matching
readable `.pem`, a non-matching `.txt`, an oversized `.crt`, and an
extensionless entry yield exactly the one matching small certificate. -/
theorem C10_certs_from_path_behaviour_witness :
    certs_from_path (.dir
      [.error (),
       .ok ⟨some pemBytes, .ok 10, .ok [1, 2]⟩,
       .ok ⟨some [116, 120, 116], .ok 5, .error ()⟩,
       .ok ⟨some crtBytes, .ok 9000, .error ()⟩,
       .ok ⟨none, .error (), .error ()⟩]) = .ok [[1, 2]] :=
  (C10_certs_from_path_behaviour.2.2.2
    [.error (),
     .ok ⟨some pemBytes, .ok 10, .ok [1, 2]⟩,
     .ok ⟨some [116, 120, 116], .ok 5, .error ()⟩,
     .ok ⟨some crtBytes, .ok 9000, .error ()⟩,
     .ok ⟨none, .error (), .error ()⟩] (by decide)).trans (by decide)

end MioHttpc
